import Mathlib

/-!
Shallow embedding of the chatgpt-csv editor core: the table data model,
the bounded undo/redo history of `CSVEditor.tsx`, the AI reconciliation
path of `AIModifier.tsx`, and the grid operations of `CSVTable.tsx`.
All definitions are direct translations of the TypeScript source.
-/

/-- The `CSVData` interface: `headers: string[]`, `data: string[][]`. -/
structure CSVData where
  headers : List String
  data : List (List String)
deriving Repr, DecidableEq

/-- The `HistoryState` type of `CSVEditor.tsx`:
`{ csvData: CSVData | null; fileName: string }`. -/
structure HistoryState where
  csvData : Option CSVData
  fileName : String
deriving Repr, DecidableEq

/-- The React state of the `CSVEditor` component: `csvData`, `fileName`,
`history`, `currentHistoryIndex` (a JS number, initially `-1`, so `Int`). -/
structure EditorState where
  csvData : Option CSVData
  fileName : String
  history : List HistoryState
  currentHistoryIndex : Int
deriving Repr, DecidableEq

/-- `updateHistory` (CSVEditor.tsx lines 87-104): truncate the history
after `currentHistoryIndex` (`history.slice(0, currentHistoryIndex + 1)`),
push the new entry, drop the oldest entry (`shift`) when the length
exceeds 50, and point `currentHistoryIndex` at the new last entry.
It does not touch `csvData` or `fileName`. -/
def updateHistory (s : EditorState) (newCsvData : Option CSVData)
    (newFileName : String) : EditorState :=
  let pushed := s.history.take (s.currentHistoryIndex + 1).toNat ++
    [{ csvData := newCsvData, fileName := newFileName }]
  let newHistory := if pushed.length > 50 then pushed.tail else pushed
  { s with history := newHistory,
           currentHistoryIndex := (newHistory.length : Int) - 1 }

/-- `updateDataWithHistory` (CSVEditor.tsx lines 107-117): set `csvData`
(and `fileName` when one is supplied), then record via `updateHistory`. -/
def updateDataWithHistory (s : EditorState) (newCsvData : Option CSVData)
    (newFileName : Option String) : EditorState :=
  let fileNameToUse := newFileName.getD s.fileName
  updateHistory { s with csvData := newCsvData, fileName := fileNameToUse }
    newCsvData fileNameToUse

/-- `handleUndo` (CSVEditor.tsx lines 120-133): when
`currentHistoryIndex > 0`, step the cursor back by one and restore the
`csvData` and `fileName` stored at the new cursor; otherwise only an
error toast is shown and the state is untouched.  The `none` branch of
the lookup is unreachable whenever `currentHistoryIndex < history.length`
(the source indexes `history[newIndex]` unconditionally there). -/
def handleUndo (s : EditorState) : EditorState :=
  if s.currentHistoryIndex > 0 then
    let newIndex := s.currentHistoryIndex - 1
    match s.history[newIndex.toNat]? with
    | some previousState =>
        { s with csvData := previousState.csvData,
                 fileName := previousState.fileName,
                 currentHistoryIndex := newIndex }
    | none => s
  else s

/-- `handleRedo` (CSVEditor.tsx lines 136-149): when
`currentHistoryIndex < history.length - 1`, step the cursor forward by
one and restore the entry stored there; otherwise the state is
untouched. -/
def handleRedo (s : EditorState) : EditorState :=
  if s.currentHistoryIndex < (s.history.length : Int) - 1 then
    let newIndex := s.currentHistoryIndex + 1
    match s.history[newIndex.toNat]? with
    | some nextState =>
        { s with csvData := nextState.csvData,
                 fileName := nextState.fileName,
                 currentHistoryIndex := newIndex }
    | none => s
  else s

/-- First phase of `handleFileUpload` (CSVEditor.tsx lines 151-159):
`setFileName(file.name)` runs before `Papa.parse` completes. -/
def handleFileUploadStart (s : EditorState) (name : String) : EditorState :=
  { s with fileName := name }

/-- The `complete` callback of `handleFileUpload` (CSVEditor.tsx lines
162-177): if the parsed data is non-empty, the first row becomes the
headers, the rest the data, and the result is recorded; otherwise only
an error toast is shown. -/
def handleFileUploadComplete (s : EditorState) (name : String)
    (parsedData : List (List String)) : EditorState :=
  match parsedData with
  | [] => s
  | headers :: data =>
      let newCsvData : CSVData := { headers := headers, data := data }
      updateHistory { s with csvData := some newCsvData } (some newCsvData) name

/-- The parsed response shape `AIReturnValue` of `AIModifier.tsx`:
`{ needsModification: boolean; message: string; table: string[][] }`. -/
structure AIReturnValue where
  needsModification : Bool
  message : String
  table : List (List String)
deriving Repr, DecidableEq

/-- The result-handling tail of `processWithAI` (AIModifier.tsx lines
122-146), composed with the `onDataUpdate` callback (which is
`updateDataWithHistory` with no file name).  Input: the editor state and
the current `analysisResult`;  output: the new editor state and
`analysisResult`.  When the response failed to parse (`none`) or
`table` is empty, nothing changes; otherwise the message is surfaced
and, only when `needsModification` is set, `table[0]` becomes the
headers, `table.slice(1)` the data, and the pair is recorded. -/
def applyAIResult (s : EditorState) (analysisResult : String)
    (result : Option AIReturnValue) : EditorState × String :=
  match result with
  | none => (s, analysisResult)
  | some r =>
      match r.table with
      | [] => (s, analysisResult)
      | newHeaders :: newData =>
          if r.needsModification then
            (updateDataWithHistory s
              (some { headers := newHeaders, data := newData }) none, r.message)
          else
            (s, r.message)

/-- `reconcile` as performed inline by `processWithAI`: an empty payload
is rejected, otherwise the first row is the header row and the rest are
the data rows. -/
inductive ReconcileError where
  | EmptyPayload
deriving Repr, DecidableEq

/-- The payload-to-table step of the reconciliation path (AIModifier.tsx
lines 126-133): `table.length > 0` guards, then `table[0]` /
`table.slice(1)`. -/
def reconcile (payload : List (List String)) : Except ReconcileError CSVData :=
  match payload with
  | [] => .error .EmptyPayload
  | headers :: data => .ok { headers := headers, data := data }

/-- One row of the row-width normalization effect of `CSVTable.tsx`
(lines 56-66): rows longer than the header count are truncated, shorter
ones right-padded with empty strings. -/
def normalizeRow (headerCount : Nat) (row : List String) : List String :=
  if row.length ≠ headerCount then
    if row.length > headerCount then row.take headerCount
    else row ++ List.replicate (headerCount - row.length) ""
  else row

/-- The normalization `useEffect` of `CSVTable.tsx` (lines 51-73) as it
acts on the editor state after the grid has copied the canonical table:
when the data is non-empty and some row width differs from the header
count, every row is normalized and the normalized data is pushed back up
through `onDataChange`, i.e. `handleDataChange` (CSVEditor.tsx lines
186-192), which records a new history entry under the current file
name. -/
def gridSyncNormalize (s : EditorState) : EditorState :=
  match s.csvData with
  | none => s
  | some cd =>
      if cd.data.length > 0 &&
          cd.data.any (fun row => row.length != cd.headers.length) then
        let normalizedData := cd.data.map (normalizeRow cd.headers.length)
        let newCsvData : CSVData := { cd with data := normalizedData }
        updateHistory { s with csvData := some newCsvData } (some newCsvData)
          s.fileName
      else s

/-- Removal of the element at one index, as the source writes it:
`filter((_, index) => index !== colIndex)`. -/
def filterOutIndex (l : List String) (colIndex : Nat) : List String :=
  (l.enum.filter (fun p => p.1 != colIndex)).map Prod.snd

/-- `addColumn` (CSVTable.tsx lines 170-201) on the grid's headers and
data: append a header named `欄位 ${headers.length + 1}` and push one
empty cell onto every row. -/
def addColumn (headers : List String) (data : List (List String)) :
    List String × List (List String) :=
  let newHeaders := headers ++ ["欄位 " ++ toString (headers.length + 1)]
  let newData := data.map (fun row => row ++ [""])
  (newHeaders, newData)

/-- `deleteColumn` (CSVTable.tsx lines 203-241): drop the header at
`colIndex`; every row shorter than the header count is first right-padded
with empty strings, then its cell at `colIndex` is dropped. -/
def deleteColumn (headers : List String) (data : List (List String))
    (colIndex : Nat) : List String × List (List String) :=
  let newHeaders := filterOutIndex headers colIndex
  let newData := data.map (fun row =>
    let paddedRow :=
      if row.length < headers.length then
        row ++ List.replicate (headers.length - row.length) ""
      else row
    filterOutIndex paddedRow colIndex)
  (newHeaders, newData)

/-- `handleCellBlur` (CSVTable.tsx lines 84-103) committing an edit of
`value` at `(row, col)`: the write happens only when `newData[row]` is
defined (`row < data.length`) and `col < headers.length`; otherwise the
data is left unchanged.  The in-range write `newData[row][col] = value`
is `List.set` provided `col` is within the row, which holds for every
settled table (row width = header count). -/
def handleCellBlur (headers : List String) (data : List (List String))
    (row col : Nat) (value : String) : List (List String) :=
  if row < data.length ∧ col < headers.length then
    data.set row ((data.getD row []).set col value)
  else data

/-- The cell of `data` at row `i`, column `j`, when both exist. -/
def cellAt (data : List (List String)) (i j : Nat) : Option String :=
  (data[i]?).bind (fun r => r[j]?)

/-! Shared concrete states used by witnesses and scenario conjuncts. -/

/-- Demo entry A of the undo/redo scenarios. -/
def entryA : HistoryState := ⟨some ⟨["h"], [["a"]]⟩, "a.csv"⟩

/-- Demo entry B of the undo/redo scenarios. -/
def entryB : HistoryState := ⟨some ⟨["h"], [["b"]]⟩, "b.csv"⟩

/-- Demo entry C of the undo/redo scenarios. -/
def entryC : HistoryState := ⟨some ⟨["h"], [["c"]]⟩, "c.csv"⟩

/-- Demo entry D of the undo/redo scenarios. -/
def entryD : HistoryState := ⟨some ⟨["h"], [["d"]]⟩, "d.csv"⟩

/-- A settled editor state with history `[A, B, C]` and the cursor on `C`. -/
def demoLog : EditorState :=
  ⟨entryC.csvData, entryC.fileName, [entryA, entryB, entryC], 2⟩

/-- A settled one-entry editor state used by the reconciliation scenarios. -/
def reconcileDemoState : EditorState :=
  ⟨some ⟨["h"], [["x"]]⟩, "data.csv", [⟨some ⟨["h"], [["x"]]⟩, "data.csv"⟩], 0⟩

/-! Basic facts about the embedded operations. -/

theorem updateHistory_csvData (s : EditorState) (nd : Option CSVData)
    (nn : String) : (updateHistory s nd nn).csvData = s.csvData := rfl

theorem updateHistory_fileName (s : EditorState) (nd : Option CSVData)
    (nn : String) : (updateHistory s nd nn).fileName = s.fileName := rfl

/-- Per-row normalization always produces a row of the header width. -/
theorem normalizeRow_length (hc : Nat) (row : List String) :
    (normalizeRow hc row).length = hc := by
  unfold normalizeRow
  split
  · split
    · simp
      omega
    · simp
      omega
  · omega

/-- Per-row normalization is the identity on rows of the header width. -/
theorem normalizeRow_eq_self (hc : Nat) (row : List String)
    (h : row.length = hc) : normalizeRow hc row = row := by
  simp [normalizeRow, h]

/-- Normalization in the grid layer: whatever the current table is, the
grid sync effect leaves its headers alone and its rows are exactly the
per-row normalizations (when no row needs fixing the effect is skipped
and the map is the identity). -/
theorem gridSyncNormalize_csvData (s : EditorState) (cd : CSVData)
    (h : s.csvData = some cd) :
    (gridSyncNormalize s).csvData =
      some ⟨cd.headers, cd.data.map (normalizeRow cd.headers.length)⟩ := by
  unfold gridSyncNormalize
  rw [h]
  split
  · rename_i heq
    exact absurd heq (by simp)
  · rename_i cd2 heq
    obtain rfl : cd = cd2 := by injection heq
    split
    · rfl
    · rename_i hcond
      rw [h]
      have hmap : cd.data.map (normalizeRow cd.headers.length) = cd.data := by
        rcases hd : cd.data with _ | ⟨r0, rest⟩
        · rfl
        · have hall : ∀ r ∈ cd.data, r.length = cd.headers.length := by
            intro r hr
            by_contra hne
            apply hcond
            have h1 : decide (cd.data.length > 0) = true := by simp [hd]
            have h2 : (cd.data.any fun row => row.length != cd.headers.length)
                = true :=
              List.any_eq_true.mpr ⟨r, hr, by simpa [bne_iff_ne] using hne⟩
            simp [h1, h2]
          rw [← hd]
          calc cd.data.map (normalizeRow cd.headers.length)
              = cd.data.map id := List.map_congr_left
                (fun r hr => normalizeRow_eq_self _ r (hall r hr))
            _ = cd.data := List.map_id cd.data
      rw [hmap]

/-- C4: when the analysis response's `needsModification` signal is false,
the result handler surfaces the analysis message but leaves the editor
state (table, file name, history, cursor) completely unchanged; only a
true signal updates the table and records history. -/
theorem noop_analysis_is_frame (s : EditorState) (analysisResult msg : String)
    (tbl : List (List String)) (hrow : List String)
    (trows : List (List String)) :
    (applyAIResult s analysisResult (some ⟨false, msg, tbl⟩)).1 = s ∧
    applyAIResult s analysisResult (some ⟨false, msg, hrow :: trows⟩) =
      (s, msg) := by
  constructor
  · cases tbl <;> rfl
  · rfl

/-- C6: an empty reconciliation payload is rejected with `EmptyPayload`
and the editor state is untouched; a one-row payload succeeds, with that
row as headers and no data rows, and applying it installs exactly that
table. -/
theorem reconcile_empty_and_single (s : EditorState) (a msg : String)
    (b : Bool) (row : List String) :
    reconcile [] = .error .EmptyPayload ∧
    applyAIResult s a (some ⟨b, msg, []⟩) = (s, a) ∧
    reconcile [row] = .ok ⟨row, []⟩ ∧
    ((applyAIResult s a (some ⟨true, msg, [row]⟩)).1).csvData =
      some ⟨row, []⟩ := by
  exact ⟨rfl, rfl, rfl, rfl⟩

/-- C10: uploading a file whose parse result is empty leaves the table,
the history and the cursor unchanged, but the file name has already been
switched to the uploaded file's name — a rejected upload is not a
complete no-op. -/
theorem upload_empty_changes_only_fileName (s : EditorState) (name : String) :
    (handleFileUploadComplete (handleFileUploadStart s name) name []).csvData
        = s.csvData ∧
    (handleFileUploadComplete (handleFileUploadStart s name) name []).history
        = s.history ∧
    (handleFileUploadComplete (handleFileUploadStart s name) name
        []).currentHistoryIndex = s.currentHistoryIndex ∧
    (handleFileUploadComplete (handleFileUploadStart s name) name []).fileName
        = name := by
  exact ⟨rfl, rfl, rfl, rfl⟩

/-- C7 counterexample: the appended column is named `欄位 2`, not
`Column 2`, so the claimed result of `addColumn` on
`{headers: ["a"], rows: [["x"], ["y"]]}` is not what the code produces. -/
theorem addColumn_name_counterexample :
    addColumn ["a"] [["x"], ["y"]]
      ≠ (["a", "Column 2"], [["x", ""], ["y", ""]]) := by
  decide

/-- C7 amended: `addColumn` appends exactly one header, keeps the
existing headers as a prefix, names the new header `欄位 N+1` from the
current header count, and appends one empty cell to every row; on
`{headers: ["a"], rows: [["x"], ["y"]]}` it yields
`{headers: ["a", "欄位 2"], rows: [["x", ""], ["y", ""]]}`. -/
theorem addColumn_spec (headers : List String) (data : List (List String)) :
    ((addColumn headers data).1).length = headers.length + 1 ∧
    (addColumn headers data).1.take headers.length = headers ∧
    (addColumn headers data).1.getLast? =
      some ("欄位 " ++ toString (headers.length + 1)) ∧
    (addColumn headers data).2 = data.map (fun row => row ++ [""]) ∧
    addColumn ["a"] [["x"], ["y"]] = (["a", "欄位 2"], [["x", ""], ["y", ""]]) := by
  refine ⟨?_, ?_, ?_, rfl, rfl⟩
  · simp [addColumn]
  · simp [addColumn, List.take_left]
  · simp [addColumn]

/-- C5 counterexample: reconciling the payload `[["h1"], ["a", "b"]]`
records the replacement table as-is — the accepted and recorded table
still has the over-wide row `["a", "b"]`, not the normalized `["a"]`, so
normalization does not happen before the table is accepted and
recorded. -/
theorem reconcile_records_unnormalized :
    ((applyAIResult reconcileDemoState ""
        (some ⟨true, "m", [["h1"], ["a", "b"]]⟩)).1).csvData
      = some ⟨["h1"], [["a", "b"]]⟩ ∧
    ((applyAIResult reconcileDemoState ""
        (some ⟨true, "m", [["h1"], ["a", "b"]]⟩)).1).csvData
      ≠ some ⟨["h1"], [["a"]]⟩ ∧
    ((applyAIResult reconcileDemoState ""
        (some ⟨true, "m", [["h1"], ["a", "b"]]⟩)).1).history.getLast?
      = some ⟨some ⟨["h1"], [["a", "b"]]⟩, "data.csv"⟩ := by
  exact ⟨rfl, by decide, rfl⟩


/-- C2: under the history invariant (`0 ≤ cursor < entries.length`),
undo is a complete no-op exactly when the cursor is 0 and redo exactly
when the cursor is on the last entry; a successful undo or redo moves
the cursor by one, restores the table and file name stored at the new
cursor, and neither appends nor removes a history entry. -/
theorem undo_redo_exactness (s : EditorState)
    (h0 : 0 ≤ s.currentHistoryIndex)
    (hlt : s.currentHistoryIndex < (s.history.length : Int)) :
    (s.currentHistoryIndex = 0 → handleUndo s = s) ∧
    (s.currentHistoryIndex ≠ 0 →
      (handleUndo s).currentHistoryIndex = s.currentHistoryIndex - 1 ∧
      (handleUndo s).history = s.history ∧
      ∃ e, s.history[(s.currentHistoryIndex - 1).toNat]? = some e ∧
        (handleUndo s).csvData = e.csvData ∧
        (handleUndo s).fileName = e.fileName) ∧
    (s.currentHistoryIndex = (s.history.length : Int) - 1 →
      handleRedo s = s) ∧
    (s.currentHistoryIndex ≠ (s.history.length : Int) - 1 →
      (handleRedo s).currentHistoryIndex = s.currentHistoryIndex + 1 ∧
      (handleRedo s).history = s.history ∧
      ∃ e, s.history[(s.currentHistoryIndex + 1).toNat]? = some e ∧
        (handleRedo s).csvData = e.csvData ∧
        (handleRedo s).fileName = e.fileName) := by
  refine ⟨?_, ?_, ?_, ?_⟩
  · intro hz
    simp [handleUndo, hz]
  · intro hne
    have hpos : 0 < s.currentHistoryIndex := lt_of_le_of_ne h0 (Ne.symm hne)
    have hidx : (s.currentHistoryIndex - 1).toNat < s.history.length := by
      omega
    obtain ⟨e, he⟩ : ∃ e,
        s.history[(s.currentHistoryIndex - 1).toNat]? = some e :=
      ⟨_, List.getElem?_eq_getElem hidx⟩
    have he' : s.history[s.currentHistoryIndex.toNat - 1]? = some e := by
      rw [show s.currentHistoryIndex.toNat - 1
            = (s.currentHistoryIndex - 1).toNat by omega]
      exact he
    refine ⟨?_, ?_, e, he, ?_, ?_⟩ <;> simp [handleUndo, hpos, he, he']
  · intro hlast
    have : ¬ s.currentHistoryIndex < (s.history.length : Int) - 1 := by omega
    simp [handleRedo, this]
  · intro hne
    have hlt' : s.currentHistoryIndex < (s.history.length : Int) - 1 := by
      omega
    have hidx : (s.currentHistoryIndex + 1).toNat < s.history.length := by
      omega
    obtain ⟨e, he⟩ : ∃ e,
        s.history[(s.currentHistoryIndex + 1).toNat]? = some e :=
      ⟨_, List.getElem?_eq_getElem hidx⟩
    have he' : s.history[s.currentHistoryIndex.toNat + 1]? = some e := by
      rw [show s.currentHistoryIndex.toNat + 1
            = (s.currentHistoryIndex + 1).toNat by omega]
      exact he
    refine ⟨?_, ?_, e, he, ?_, ?_⟩ <;> simp [handleRedo, hlt', he, he']

/-- Witness for the undo/redo exactness theorem at the concrete state
`demoLog` (history `[A, B, C]`, cursor 2). -/
theorem undo_redo_exactness_witness :
    (0 : Int) ≤ demoLog.currentHistoryIndex ∧
    demoLog.currentHistoryIndex < (demoLog.history.length : Int) ∧
    (handleUndo demoLog).currentHistoryIndex =
      demoLog.currentHistoryIndex - 1 :=
  ⟨by decide, by decide,
    ((undo_redo_exactness demoLog (by decide) (by decide)).2.1
      (by decide)).1⟩

/-- The last entry of `(l ++ [a]).tail` is still `a` when `l` is
non-empty. -/
theorem getLast_tail_concat {α : Type} (l : List α) (a : α) (h : l ≠ []) :
    (l ++ [a]).tail.getLast? = some a := by
  cases l with
  | nil => exact absurd rfl h
  | cons b l' => simp

/-- C1: `record` keeps exactly the entries up to the cursor (evicting the
oldest one when the 50-entry bound would be exceeded), appends the new
`{table, label}` entry as the new last entry, and points the cursor at
it; the `[A, B, C]`-at-cursor-2 scenario — undo to cursor 1, then record
`D` — yields `[A, B, D]` with `C` unreachable by redo. -/
theorem updateHistory_spec (s : EditorState) (nd : Option CSVData)
    (nn : String) :
    (updateHistory s nd nn).currentHistoryIndex =
      ((updateHistory s nd nn).history.length : Int) - 1 ∧
    (updateHistory s nd nn).history.getLast? =
      some ⟨nd, nn⟩ ∧
    (min (s.currentHistoryIndex + 1).toNat s.history.length + 1 ≤ 50 →
        (updateHistory s nd nn).history.length
          = min (s.currentHistoryIndex + 1).toNat s.history.length + 1 ∧
        ∀ i, i < min (s.currentHistoryIndex + 1).toNat s.history.length →
          (updateHistory s nd nn).history[i]? = s.history[i]?) ∧
    (50 < min (s.currentHistoryIndex + 1).toNat s.history.length + 1 →
        (updateHistory s nd nn).history.length
          = min (s.currentHistoryIndex + 1).toNat s.history.length ∧
        ∀ i, i + 1 < min (s.currentHistoryIndex + 1).toNat s.history.length →
          (updateHistory s nd nn).history[i]? = s.history[i + 1]?) ∧
    (updateHistory s nd nn).csvData = s.csvData ∧
    (updateHistory s nd nn).fileName = s.fileName ∧
    ((handleUndo demoLog).currentHistoryIndex = 1 ∧
     (updateHistory (handleUndo demoLog) entryD.csvData
        entryD.fileName).history = [entryA, entryB, entryD] ∧
     (updateHistory (handleUndo demoLog) entryD.csvData
        entryD.fileName).currentHistoryIndex = 2 ∧
     handleRedo (updateHistory (handleUndo demoLog) entryD.csvData
        entryD.fileName)
       = updateHistory (handleUndo demoLog) entryD.csvData entryD.fileName) := by
  set t := s.history.take (s.currentHistoryIndex + 1).toNat with hT
  set pushed := t ++ [(⟨nd, nn⟩ : HistoryState)] with hP
  have hlen_t : t.length
      = min (s.currentHistoryIndex + 1).toNat s.history.length := by
    rw [hT]
    exact List.length_take _ _
  have hlen_p : pushed.length = t.length + 1 := by simp [hP]
  have hist_def : (updateHistory s nd nn).history
      = if pushed.length > 50 then pushed.tail else pushed := rfl
  refine ⟨rfl, ?_, ?_, ?_, rfl, rfl, by decide⟩
  · rw [hist_def]
    split
    · rename_i hgt
      have htne : t ≠ [] := by
        intro hnil
        rw [hnil] at hlen_p
        simp at hlen_p
        omega
      exact getLast_tail_concat t _ htne
    · exact List.getLast?_concat t
  · intro hle
    have hnot : ¬ pushed.length > 50 := by omega
    rw [hist_def, if_neg hnot]
    refine ⟨by omega, ?_⟩
    intro i hi
    rw [hP, List.getElem?_append_left (by omega : i < t.length), hT]
    exact List.getElem?_take_of_lt (by omega)
  · intro hgt
    have hgt' : pushed.length > 50 := by omega
    rw [hist_def, if_pos hgt']
    refine ⟨by rw [List.length_tail]; omega, ?_⟩
    intro i hi
    rw [← List.drop_one, List.getElem?_drop]
    rw [hP, List.getElem?_append_left (by omega : 1 + i < t.length), hT,
      List.getElem?_take_of_lt (by omega)]
    rw [Nat.add_comm 1 i]

/-- Witness for the `record` characterization at the concrete state
`demoLog` (history `[A, B, C]`, cursor 2): no eviction, so the recorded
history has length 4. -/
theorem updateHistory_spec_witness :
    (updateHistory demoLog entryD.csvData entryD.fileName).history.length
      = min (demoLog.currentHistoryIndex + 1).toNat demoLog.history.length
        + 1 :=
  ((updateHistory_spec demoLog entryD.csvData entryD.fileName).2.2.1
    (by decide)).1

/-- A successful undo, given the entry stored one slot before the
cursor. -/
theorem handleUndo_of_get (s : EditorState) (e : HistoryState)
    (hpos : 0 < s.currentHistoryIndex)
    (hget : s.history[(s.currentHistoryIndex - 1).toNat]? = some e) :
    handleUndo s = { s with csvData := e.csvData, fileName := e.fileName,
                            currentHistoryIndex := s.currentHistoryIndex - 1 } := by
  unfold handleUndo
  rw [if_pos hpos]
  simp only [hget]

/-- A successful redo, given the entry stored one slot after the
cursor. -/
theorem handleRedo_of_get (s : EditorState) (e : HistoryState)
    (hlt : s.currentHistoryIndex < (s.history.length : Int) - 1)
    (hget : s.history[(s.currentHistoryIndex + 1).toNat]? = some e) :
    handleRedo s = { s with csvData := e.csvData, fileName := e.fileName,
                            currentHistoryIndex := s.currentHistoryIndex + 1 } := by
  unfold handleRedo
  rw [if_pos hlt]
  simp only [hget]

/-- Recording and then immediately undoing lands back on whatever entry
the cursor pointed at before the record — also across the eviction of
the oldest entry. -/
theorem record_then_undo_entry (s : EditorState) (nd : Option CSVData)
    (nn : String) (e : HistoryState)
    (h0 : 0 ≤ s.currentHistoryIndex)
    (hlt : s.currentHistoryIndex < (s.history.length : Int))
    (hcur : s.history[s.currentHistoryIndex.toNat]? = some e) :
    (handleUndo (updateHistory s nd nn)).csvData = e.csvData ∧
    (handleUndo (updateHistory s nd nn)).fileName = e.fileName := by
  set cn := s.currentHistoryIndex.toNat with hcn
  set t := s.history.take (s.currentHistoryIndex + 1).toNat with hT
  have hlen_t : t.length = cn + 1 := by
    rw [hT, List.length_take]
    omega
  set pushed := t ++ [(⟨nd, nn⟩ : HistoryState)] with hP
  have hlen_p : pushed.length = cn + 2 := by
    rw [hP]
    simp [hlen_t]
  have hpcn : pushed[cn]? = some e := by
    rw [hP, List.getElem?_append_left (by omega), hT,
      List.getElem?_take_of_lt (by omega)]
    exact hcur
  have hist_def : (updateHistory s nd nn).history
      = if pushed.length > 50 then pushed.tail else pushed := rfl
  have cur_def : (updateHistory s nd nn).currentHistoryIndex
      = ((updateHistory s nd nn).history.length : Int) - 1 := rfl
  by_cases hev : pushed.length > 50
  · have hhist : (updateHistory s nd nn).history = pushed.tail := by
      rw [hist_def, if_pos hev]
    have hlen1 : (updateHistory s nd nn).history.length = cn + 1 := by
      rw [hhist, List.length_tail, hlen_p]
      omega
    have hcur1 : (updateHistory s nd nn).currentHistoryIndex = (cn : Int) := by
      rw [cur_def, hlen1]
      omega
    have hpos : 0 < (updateHistory s nd nn).currentHistoryIndex := by
      rw [hcur1]
      omega
    have hget : getElem? (updateHistory s nd nn).history
        (((updateHistory s nd nn).currentHistoryIndex - 1).toNat) = some e := by
      rw [hcur1, hhist, ← List.drop_one, List.getElem?_drop,
        show 1 + ((cn : Int) - 1).toNat = cn by omega]
      exact hpcn
    rw [handleUndo_of_get _ e hpos hget]
    exact ⟨rfl, rfl⟩
  · have hhist : (updateHistory s nd nn).history = pushed := by
      rw [hist_def, if_neg hev]
    have hlen1 : (updateHistory s nd nn).history.length = cn + 2 := by
      rw [hhist, hlen_p]
    have hcur1 : (updateHistory s nd nn).currentHistoryIndex
        = (cn : Int) + 1 := by
      rw [cur_def, hlen1]
      omega
    have hpos : 0 < (updateHistory s nd nn).currentHistoryIndex := by
      rw [hcur1]
      omega
    have hget : getElem? (updateHistory s nd nn).history
        (((updateHistory s nd nn).currentHistoryIndex - 1).toNat) = some e := by
      rw [hcur1, hhist, show (((cn : Int) + 1) - 1).toNat = cn by omega]
      exact hpcn
    rw [handleUndo_of_get _ e hpos hget]
    exact ⟨rfl, rfl⟩

/-- C3: on a settled state (the entry at the cursor is the current table
and file name), recording a new snapshot and then undoing restores the
previous table and file name with structural (deep) equality; and for a
cursor strictly inside bounds, undo followed by redo restores the table,
file name and cursor that were current before the undo, with the history
entries untouched. -/
theorem history_roundtrips (s : EditorState) (nd : Option CSVData)
    (nn : Option String)
    (h0 : 0 ≤ s.currentHistoryIndex)
    (hlt : s.currentHistoryIndex < (s.history.length : Int))
    (hcur : s.history[s.currentHistoryIndex.toNat]?
        = some ⟨s.csvData, s.fileName⟩) :
    ((handleUndo (updateDataWithHistory s nd nn)).csvData = s.csvData ∧
     (handleUndo (updateDataWithHistory s nd nn)).fileName = s.fileName) ∧
    (0 < s.currentHistoryIndex →
      (handleRedo (handleUndo s)).csvData = s.csvData ∧
      (handleRedo (handleUndo s)).fileName = s.fileName ∧
      (handleRedo (handleUndo s)).currentHistoryIndex
        = s.currentHistoryIndex ∧
      (handleRedo (handleUndo s)).history = s.history) := by
  constructor
  · have hdef : updateDataWithHistory s nd nn
        = updateHistory
            { s with csvData := nd, fileName := nn.getD s.fileName }
            nd (nn.getD s.fileName) := rfl
    rw [hdef]
    exact record_then_undo_entry _ nd _ ⟨s.csvData, s.fileName⟩ h0 hlt hcur
  · intro hpos
    have hidxu : (s.currentHistoryIndex - 1).toNat < s.history.length := by
      omega
    obtain ⟨e, he⟩ : ∃ e,
        s.history[(s.currentHistoryIndex - 1).toNat]? = some e :=
      ⟨_, List.getElem?_eq_getElem hidxu⟩
    rw [handleUndo_of_get s e hpos he]
    set u : EditorState := { s with csvData := e.csvData, fileName := e.fileName, currentHistoryIndex := s.currentHistoryIndex - 1 } with hU
    have hu1 : u.currentHistoryIndex = s.currentHistoryIndex - 1 := rfl
    have hu2 : u.history = s.history := rfl
    have hlt2 : u.currentHistoryIndex < (u.history.length : Int) - 1 := by
      rw [hu1, hu2]
      omega
    have hget2 : getElem? u.history ((u.currentHistoryIndex + 1).toNat)
        = some (⟨s.csvData, s.fileName⟩ : HistoryState) := by
      rw [hu2, hu1, show (s.currentHistoryIndex - 1 + 1).toNat
            = s.currentHistoryIndex.toNat by omega]
      exact hcur
    rw [handleRedo_of_get u _ hlt2 hget2]
    refine ⟨rfl, rfl, ?_, rfl⟩
    show u.currentHistoryIndex + 1 = s.currentHistoryIndex
    rw [hu1]
    omega

/-- Witness for the roundtrip theorem at the concrete settled state
`demoLog` (history `[A, B, C]`, cursor 2). -/
theorem history_roundtrips_witness :
    demoLog.history[demoLog.currentHistoryIndex.toNat]?
      = some ⟨demoLog.csvData, demoLog.fileName⟩ ∧
    (handleRedo (handleUndo demoLog)).csvData = demoLog.csvData :=
  ⟨by decide,
    ((history_roundtrips demoLog (some ⟨["h"], [["d"]]⟩) (some "d.csv")
      (by decide) (by decide) (by decide)).2 (by decide)).1⟩

/-- Filtering `enumFrom n` by an index bound below `n` keeps every
element. -/
theorem filter_enumFrom_of_lt (l : List String) :
    ∀ (n m : Nat), m < n →
      ((l.enumFrom n).filter (fun p => p.1 != m)).map Prod.snd = l := by
  induction l with
  | nil =>
      intro n m _
      rfl
  | cons a t ih =>
      intro n m hmn
      have hb : (((n, a) : Nat × String).1 != m) = true := by
        simp only [bne_iff_ne, ne_eq]
        omega
      show ((((n, a) :: t.enumFrom (n + 1)).filter
        (fun p => p.1 != m)).map Prod.snd) = a :: t
      rw [List.filter_cons, hb]
      simp only [if_true, List.map_cons]
      rw [ih (n + 1) m (by omega)]

/-- `filter((_, index) => index !== colIndex)` over `enumFrom n`, at the
relative position `i`, is `eraseIdx i`. -/
theorem filter_enumFrom_eraseIdx (l : List String) :
    ∀ (n i : Nat),
      ((l.enumFrom n).filter (fun p => p.1 != (n + i))).map Prod.snd
        = l.eraseIdx i := by
  induction l with
  | nil =>
      intro n i
      rfl
  | cons a t ih =>
      intro n i
      cases i with
      | zero =>
          have hb : (((n, a) : Nat × String).1 != (n + 0)) = false := by
            simp
          show ((((n, a) :: t.enumFrom (n + 1)).filter
            (fun p => p.1 != (n + 0))).map Prod.snd) = (a :: t).eraseIdx 0
          rw [List.filter_cons, hb]
          show ((t.enumFrom (n + 1)).filter
            (fun p => p.1 != (n + 0))).map Prod.snd = t
          exact filter_enumFrom_of_lt t (n + 1) (n + 0) (by omega)
      | succ j =>
          have hb : (((n, a) : Nat × String).1 != (n + (j + 1))) = true := by
            simp only [bne_iff_ne, ne_eq]
            omega
          show ((((n, a) :: t.enumFrom (n + 1)).filter
            (fun p => p.1 != (n + (j + 1)))).map Prod.snd)
              = (a :: t).eraseIdx (j + 1)
          rw [List.filter_cons, hb]
          simp only [if_true, List.map_cons]
          have harith : n + (j + 1) = (n + 1) + j := by omega
          rw [harith, ih (n + 1) j]
          rfl

/-- `filterOutIndex` is exactly `eraseIdx`. -/
theorem filterOutIndex_eq_eraseIdx (l : List String) (i : Nat) :
    filterOutIndex l i = l.eraseIdx i := by
  have h := filter_enumFrom_eraseIdx l 0 i
  simpa [filterOutIndex, List.enum] using h

/-- C8: for a valid column index, `deleteColumn` removes the header at
`col` and, after right-padding any row shorter than the header count
with empty strings, removes the cell at `col` from every row; the
`{headers: ["a","b"], rows: [["1","2"]]}` at index 0 scenario yields
`{headers: ["b"], rows: [["2"]]}`. -/
theorem deleteColumn_spec (headers : List String)
    (data : List (List String)) (col : Nat) (hcol : col < headers.length) :
    (deleteColumn headers data col).1 = headers.eraseIdx col ∧
    (deleteColumn headers data col).1.length = headers.length - 1 ∧
    (deleteColumn headers data col).2 = data.map (fun row =>
      (row ++ List.replicate (headers.length - row.length) "").eraseIdx
        col) ∧
    deleteColumn ["a", "b"] [["1", "2"]] 0 = (["b"], [["2"]]) := by
  refine ⟨filterOutIndex_eq_eraseIdx headers col, ?_, ?_, by decide⟩
  · rw [show (deleteColumn headers data col).1 = headers.eraseIdx col from
      filterOutIndex_eq_eraseIdx headers col]
    exact List.length_eraseIdx_of_lt hcol
  · refine List.map_congr_left ?_
    intro row _
    rw [filterOutIndex_eq_eraseIdx]
    by_cases hl : row.length < headers.length
    · rw [if_pos hl]
    · rw [if_neg hl, show headers.length - row.length = 0 by omega]
      simp

/-- Witness for the `deleteColumn` theorem at the concrete scenario
table. -/
theorem deleteColumn_spec_witness :
    0 < (["a", "b"] : List String).length ∧
    (deleteColumn ["a", "b"] [["1", "2"]] 0).1
      = (["a", "b"] : List String).eraseIdx 0 :=
  ⟨by decide, (deleteColumn_spec ["a", "b"] [["1", "2"]] 0 (by decide)).1⟩

/-- C9: committing a cell edit is a complete no-op on the data when the
target row index or column index is out of range; when both are in range
(on a settled table, every row as wide as the header list) the result
has the same number of rows, holds the new value at `(row, col)`, and
agrees with the input at every other cell. -/
theorem handleCellBlur_spec (headers : List String)
    (data : List (List String)) (row col : Nat) (value : String)
    (hsettled : ∀ r ∈ data, r.length = headers.length) :
    (¬(row < data.length ∧ col < headers.length) →
      handleCellBlur headers data row col value = data) ∧
    (row < data.length → col < headers.length →
      (handleCellBlur headers data row col value).length = data.length ∧
      cellAt (handleCellBlur headers data row col value) row col
        = some value ∧
      ∀ i j, ¬(i = row ∧ j = col) →
        cellAt (handleCellBlur headers data row col value) i j
          = cellAt data i j) := by
  constructor
  · intro h
    unfold handleCellBlur
    rw [if_neg h]
  · intro hrow hcol
    obtain ⟨r, hr⟩ : ∃ r, data[row]? = some r :=
      ⟨_, List.getElem?_eq_getElem hrow⟩
    have hmem : r ∈ data := List.getElem?_mem hr
    have hcolr : col < r.length := by
      rw [hsettled r hmem]
      exact hcol
    have hgetD : data.getD row [] = r := by
      rw [List.getD_eq_getElem?_getD, hr]
      rfl
    have hres : handleCellBlur headers data row col value
        = data.set row (r.set col value) := by
      unfold handleCellBlur
      rw [if_pos ⟨hrow, hcol⟩, hgetD]
    refine ⟨?_, ?_, ?_⟩
    · rw [hres]
      exact List.length_set data row (r.set col value)
    · rw [hres]
      unfold cellAt
      rw [List.getElem?_set_self hrow]
      show (r.set col value)[col]? = some value
      exact List.getElem?_set_self hcolr
    · intro i j hij
      rw [hres]
      unfold cellAt
      by_cases hi : i = row
      · subst hi
        have hj : j ≠ col := by tauto
        rw [List.getElem?_set_self hrow, hr]
        show (r.set col value)[j]? = r[j]?
        exact List.getElem?_set_ne (Ne.symm hj)
      · rw [List.getElem?_set_ne (Ne.symm hi)]

/-- Witness for the `setCell` commit theorem at a concrete in-range
edit. -/
theorem handleCellBlur_spec_witness :
    (∀ r ∈ ([["1", "2"]] : List (List String)),
      r.length = (["a", "b"] : List String).length) ∧
    cellAt (handleCellBlur ["a", "b"] [["1", "2"]] 0 1 "z") 0 1
      = some "z" :=
  ⟨by decide,
    ((handleCellBlur_spec ["a", "b"] [["1", "2"]] 0 1 "z" (by decide)).2
      (by decide) (by decide)).2.1⟩

/-- Whatever `record` keeps or evicts, the entry it just pushed is the
new last entry of the history. -/
theorem updateHistory_getLast (s : EditorState) (nd : Option CSVData)
    (nn : String) :
    (updateHistory s nd nn).history.getLast? = some ⟨nd, nn⟩ := by
  have hist_def : (updateHistory s nd nn).history
      = if (s.history.take (s.currentHistoryIndex + 1).toNat
            ++ [(⟨nd, nn⟩ : HistoryState)]).length > 50
        then (s.history.take (s.currentHistoryIndex + 1).toNat
            ++ [(⟨nd, nn⟩ : HistoryState)]).tail
        else s.history.take (s.currentHistoryIndex + 1).toNat
            ++ [(⟨nd, nn⟩ : HistoryState)] := rfl
  rw [hist_def]
  split
  · rename_i hgt
    apply getLast_tail_concat
    intro hnil
    rw [hnil] at hgt
    simp at hgt
  · exact List.getLast?_concat _

/-- When some row width differs from the header count, the grid sync
effect is exactly a `record` of the fully normalized table under the
current file name. -/
theorem gridSyncNormalize_eq_record (s : EditorState) (cd : CSVData)
    (h : s.csvData = some cd)
    (hany : cd.data.any (fun row => row.length != cd.headers.length)
      = true) :
    gridSyncNormalize s =
      updateHistory { s with csvData := some ⟨cd.headers, cd.data.map (normalizeRow cd.headers.length)⟩ }
        (some ⟨cd.headers, cd.data.map (normalizeRow cd.headers.length)⟩)
        s.fileName := by
  unfold gridSyncNormalize
  rw [h]
  split
  · rename_i heq
    exact absurd heq (by simp)
  · rename_i cd2 heq
    obtain rfl : cd = cd2 := by injection heq
    have hlen : decide (cd.data.length > 0) = true := by
      rcases hd : cd.data with _ | ⟨r, rs⟩
      · rw [hd] at hany
        simp at hany
      · simp [hd]
    have hcond : (decide (cd.data.length > 0)
        && cd.data.any fun row => row.length != cd.headers.length) = true := by
      rw [hlen, hany]
      rfl
    rw [if_pos hcond]

/-- C5 amended: the reconciliation path records the replacement table
un-normalized; row-width normalization happens afterwards in the grid
sync layer, which maps every row to the header width and pushes the
normalized table back as a further recorded entry.  After that sync step
the table for payload `hs :: rest` has headers `hs` and the normalized
rows, every row has the header width, and — whenever some row width
actually differs from the header count — the normalized table is the
new last history entry; the payload `[["h1"], ["a", "b"]]` ends up as
headers `["h1"]` with the single row `["a"]`, appended to the history
as one further entry. -/
theorem gridSync_normalizes_reconciled (s : EditorState) (a msg : String)
    (hs : List String) (rest : List (List String)) :
    (gridSyncNormalize
        (applyAIResult s a (some ⟨true, msg, hs :: rest⟩)).1).csvData =
      some ⟨hs, rest.map (normalizeRow hs.length)⟩ ∧
    (rest.map (normalizeRow hs.length)).all
      (fun row => row.length == hs.length) = true ∧
    (rest.any (fun row => row.length != hs.length) = true →
      (gridSyncNormalize
          (applyAIResult s a (some ⟨true, msg, hs :: rest⟩)).1).history.getLast?
        = some ⟨some ⟨hs, rest.map (normalizeRow hs.length)⟩,
            ((applyAIResult s a (some ⟨true, msg, hs :: rest⟩)).1).fileName⟩) ∧
    (gridSyncNormalize
        (applyAIResult reconcileDemoState ""
          (some ⟨true, "m", [["h1"], ["a", "b"]]⟩)).1).csvData =
      some ⟨["h1"], [["a"]]⟩ ∧
    (gridSyncNormalize
        (applyAIResult reconcileDemoState ""
          (some ⟨true, "m", [["h1"], ["a", "b"]]⟩)).1).history =
      ((applyAIResult reconcileDemoState ""
          (some ⟨true, "m", [["h1"], ["a", "b"]]⟩)).1).history
        ++ [⟨some ⟨["h1"], [["a"]]⟩, "data.csv"⟩] ∧
    (gridSyncNormalize
        (applyAIResult reconcileDemoState ""
          (some ⟨true, "m", [["h1"], ["a", "b"]]⟩)).1).history.length =
      ((applyAIResult reconcileDemoState ""
          (some ⟨true, "m", [["h1"], ["a", "b"]]⟩)).1).history.length + 1 := by
  refine ⟨?_, ?_, ?_, by decide, by decide, by decide⟩
  · exact gridSyncNormalize_csvData _ ⟨hs, rest⟩ rfl
  · rw [List.all_eq_true]
    intro row hrow
    obtain ⟨r0, _, rfl⟩ := List.mem_map.mp hrow
    simpa using normalizeRow_length hs.length r0
  · intro hany
    rw [gridSyncNormalize_eq_record _ ⟨hs, rest⟩ rfl hany]
    exact updateHistory_getLast _ _ _

/-- Witness for the amended reconciliation-normalization theorem at the
concrete payload `[["h1"], ["a", "b"]]`, whose data row is wider than
the header row. -/
theorem gridSync_normalizes_reconciled_witness :
    ([["a", "b"]] : List (List String)).any
      (fun row => row.length != (["h1"] : List String).length) = true ∧
    (gridSyncNormalize
        (applyAIResult reconcileDemoState ""
          (some ⟨true, "m", [["h1"], ["a", "b"]]⟩)).1).history.getLast?
      = some ⟨some ⟨["h1"], [["a"]]⟩,
          ((applyAIResult reconcileDemoState ""
            (some ⟨true, "m", [["h1"], ["a", "b"]]⟩)).1).fileName⟩ :=
  ⟨by decide,
    (gridSync_normalizes_reconciled reconcileDemoState "" "m" ["h1"]
      [["a", "b"]]).2.2.1 (by decide)⟩
